import Mathlib

/-!
# Verification of the seam-carving core (`seamCarving.cpp`)

Shallow embedding of the seam-carving program: grids are `List (List Int)`
(row-major, as `vector<vector<int>>`), and each C++ function is translated
into a Lean function with the same guard structure.  Out-of-bounds reads
that the C++ code guards away are modelled with `List.getD` defaults that
never fire under the rectangularity hypotheses of the theorems.
-/

namespace SeamCarving

/-- `mat g i j` models `g[i][j]` on a 2-D vector (default 0 where the C++
access would be out of bounds; all theorem hypotheses keep it in bounds). -/
def mat (g : List (List Int)) (i j : Nat) : Int :=
  (g.getD i []).getD j 0

/-- Length of row `i`, i.e. `g[i].size()`. -/
def rowLen (g : List (List Int)) (i : Nat) : Nat :=
  (g.getD i []).length

/-- The shape of a grid: the list of its row lengths. -/
def shape (g : List (List Int)) : List Nat :=
  g.map List.length

/-- Rectangularity: every row has length `C`. -/
def IsRect (g : List (List Int)) (C : Nat) : Prop :=
  ∀ r ∈ g, r.length = C

instance instIsRectDecidable (g : List (List Int)) (C : Nat) : Decidable (IsRect g C) :=
  inferInstanceAs (Decidable (∀ r ∈ g, r.length = C))

/-- `abs` on machine integers (`<cmath>`'s `abs` applied to `int`). -/
def iabs (a : Int) : Int := if a < 0 then -a else a

/-- Binary minimum on integers, as `std::min_element`'s comparisons
compute it. -/
def imin (a b : Int) : Int := if a ≤ b then a else b

/-- Energy of pixel `(i, j)`: body of the inner loop of `initEnergyMap`.
`left`/`right`/`up`/`down` replicate the four guarded neighbor reads with
the duplicate-border substitutions of the C++ source. -/
def energyAt (I : List (List Int)) (i j : Nat) : Int :=
  let c := mat I i j
  let left := if 1 ≤ j then mat I i (j - 1) else c
  let right := if j + 1 < rowLen I i then mat I i (j + 1) else c
  let changeX := iabs (c - left) + iabs (c - right)
  let up := if 1 ≤ i then mat I (i - 1) j else c
  let down := if i + 1 < I.length then mat I (i + 1) j else c
  let changeY := iabs (c - up) + iabs (c - down)
  changeX + changeY

/-- `initEnergyMap`: for each row `i` and column `j < imageMap[i].size()`,
store `energyAt`. -/
def initEnergyMap (I : List (List Int)) : List (List Int) :=
  (List.range I.length).map fun i =>
    (List.range (rowLen I i)).map fun j => energyAt I i j

/-- Minimum value of a list (`*std::min_element`; value only).
Empty input never occurs in guarded use; 0 is a junk default. -/
def minList : List Int → Int
  | [] => 0
  | [a] => a
  | a :: b :: t => imin a (minList (b :: t))

/-- The `validSeamOriginList` of the cumulative-energy loop: guarded reads of
row `i-1` (`prev`) at columns `j-1`, `j`, `j+1`, the upper-right guard using
the current row length (`energyMap[i].size()`), exactly as in the source. -/
def seamOriginList (prev : List Int) (curLen j : Nat) : List Int :=
  (if 1 ≤ j then [prev.getD (j - 1) 0] else []) ++
    [prev.getD j 0] ++
      (if j + 1 < curLen then [prev.getD (j + 1) 0] else [])

/-- One row of the cumulative-energy map: `result[i][j] += min(validSeamOriginList)`,
where `prev` is the already-updated row `i-1` and `erow` is `energyMap` row `i`. -/
def ceRow (prev erow : List Int) : List Int :=
  (List.range erow.length).map fun j =>
    erow.getD j 0 + minList (seamOriginList prev erow.length j)

/-- Rows 1..R-1 of the cumulative map, each computed from the previous
cumulative row (the C++ loop mutates `result` top to bottom). -/
def ceRows (prev : List Int) : List (List Int) → List (List Int)
  | [] => []
  | r :: rs =>
    let cur := ceRow prev r
    cur :: ceRows cur rs

/-- `initCumulativeEnergyMap`: row 0 is copied verbatim (the loop starts at
`i = 1` on a copy of `energyMap`), later rows via `ceRows`. -/
def initCumulativeEnergyMap (E : List (List Int)) : List (List Int) :=
  match E with
  | [] => []
  | r0 :: rest => r0 :: ceRows r0 rest

/-- Index of the first minimum of a list: `distance(begin, min_element(...))`.
`List.indexOf` returns the first occurrence of the minimum value. -/
def minIdx (l : List Int) : Nat :=
  l.indexOf (minList l)

/-- `distance(begin, find(begin, end, v))`: index of the first occurrence of
`v` in `row` (or `row.length` when absent). -/
def findIdxOf (row : List Int) (v : Int) : Nat :=
  row.indexOf v

/-- The trace-back step of `seamCarver`: from seam column `j` in a row of
length `curLen`, the next (upper) seam column is the index found by
re-searching the WHOLE row `prev` for the minimum candidate value
(`std::find` over `cumulativeEnergyMap[i-1]`). -/
def nextSeamIdx (prev : List Int) (curLen j : Nat) : Nat :=
  findIdxOf prev (minList (seamOriginList prev curLen j))

/-- Builds the seam bottom-up: `cur` is cumulative row `i`, `j` its seam
column, `above` the rows `i-1, i-2, …, 0`; returns `[jᵢ, jᵢ₋₁, …, j₀]`. -/
def seamRevAux (cur : List Int) (j : Nat) : List (List Int) → List Nat
  | [] => [j]
  | prev :: rest => j :: seamRevAux prev (nextSeamIdx prev cur.length j) rest

/-- Phase 1 of `seamCarver`: the list `seam_column_indices` (row 0 first).
The seed is the first minimum of the last cumulative row. -/
def seamCarverSeam (CE : List (List Int)) : List Nat :=
  match CE.reverse with
  | [] => []
  | last :: above => (seamRevAux last (minIdx last) above).reverse

/-- One `std::swap(row[a], row[b])` on a list. -/
def listSwap (row : List Int) (a b : Nat) : List Int :=
  (row.set a (row.getD b 0)).set b (row.getD a 0)

/-- The swap loop of the removal phase: starting at seam index `k`, swap
adjacent elements while `k + 1 < bound`; `n` is the remaining iteration
count `bound - (k+1)`. -/
def bubbleAux : Nat → List Int → Nat → List Int
  | 0, row, _ => row
  | n + 1, row, k => bubbleAux n (listSwap row k (k + 1)) (k + 1)

/-- Removal of the seam pixel from one row: bubble it to the end
(`while (seam_pixel_index + 1 < cumulativeEnergyMap[i].size())`), then
`pop_back` (`List.dropLast`).  `bound` is `cumulativeEnergyMap[i].size()`. -/
def removeRow (row : List Int) (k bound : Nat) : List Int :=
  (bubbleAux (bound - (k + 1)) row k).dropLast

/-- Phase 2 of `seamCarver`: every row `i` of the image map loses its seam
pixel; the swap loop is bounded by the cumulative row's size. -/
def seamCarver (I CE : List (List Int)) : List (List Int) :=
  List.zipWith (fun (row : List Int) (p : Nat × Nat) => removeRow row p.1 p.2)
    I ((seamCarverSeam CE).zip (CE.map List.length))

/-! ## Spec-side reference definitions -/

/-- Adjacency of two consecutive seam columns: they differ by at most 1. -/
def Adjacent (a b : Nat) : Prop := a ≤ b + 1 ∧ b ≤ a + 1

instance instAdjacentDecidable : DecidableRel Adjacent := fun a b =>
  inferInstanceAs (Decidable (a ≤ b + 1 ∧ b ≤ a + 1))

/-- The seam adjacency invariant of the spec: consecutive entries differ by
at most 1. -/
def SeamAdjacent : List Nat → Prop
  | [] => True
  | [_] => True
  | a :: b :: t => Adjacent a b ∧ SeamAdjacent (b :: t)

instance instSeamAdjacentDecidable : (s : List Nat) → Decidable (SeamAdjacent s)
  | [] => .isTrue True.intro
  | [_] => .isTrue True.intro
  | a :: b :: t =>
    have : Decidable (SeamAdjacent (b :: t)) := instSeamAdjacentDecidable (b :: t)
    inferInstanceAs (Decidable (Adjacent a b ∧ SeamAdjacent (b :: t)))

/-- Modelled from the spec: the candidate parent COLUMNS
`{j-1, j, j+1} ∩ [0, curLen-1]` of the reference (position-based)
backtrace. -/
def refCandPos (curLen j : Nat) : List Nat :=
  (if 1 ≤ j then [j - 1] else []) ++ [j] ++ (if j + 1 < curLen then [j + 1] else [])

/-- Modelled from the spec: the reference positional backtrace step — the
leftmost column among `{j-1, j, j+1} ∩ [0, C-1]` whose value in the parent
row equals the minimum of the candidates' values. -/
def refNextSeamIdx (prev : List Int) (curLen j : Nat) : Nat :=
  let ps := refCandPos curLen j
  let m := minList (ps.map fun p => prev.getD p 0)
  (ps.filter fun p => prev.getD p 0 == m).headD j

/-- Reference seam built bottom-up with the positional backtrace step. -/
def refSeamRevAux (cur : List Int) (j : Nat) : List (List Int) → List Nat
  | [] => [j]
  | prev :: rest => j :: refSeamRevAux prev (refNextSeamIdx prev cur.length j) rest

/-- Modelled from the spec: the full reference backtrace (same seed rule,
positional step). -/
def refSeam (CE : List (List Int)) : List Nat :=
  match CE.reverse with
  | [] => []
  | last :: above => (refSeamRevAux last (minIdx last) above).reverse

/-! ## Pixel-range validation of `initImageMap`

The parse_data region of `initImageMap` reads `rows*cols` whitespace-
separated integers (a read past the end of the data writes 0, as
`operator>>` does on failure) and rejects any value outside
`[0, maxPixelValue]` with an error message naming the bound, then
`exit(1)`.  The model returns `Except.error maxVal` (the reported bound,
standing for the fatal exit) or `Except.ok` with the populated grid. -/

/-- One row of the population loop: push pixels, failing fatally at the
first value outside `[0, maxVal]`. -/
def parseRow (maxVal : Int) : List Int → Except Int (List Int)
  | [] => .ok []
  | p :: rest =>
    if p > maxVal || p < 0 then .error maxVal
    else
      match parseRow maxVal rest with
      | .error e => .error e
      | .ok r => .ok (p :: r)

/-- The `rows × cols` values drawn sequentially from the pixel stream
(missing values read as 0). -/
def chunkRows (stream : List Int) (rows cols : Nat) : List (List Int) :=
  (List.range rows).map fun i =>
    (List.range cols).map fun j => stream.getD (i * cols + j) 0

/-- The outer population loop over rows. -/
def parseRowsAux (maxVal : Int) : List (List Int) → Except Int (List (List Int))
  | [] => .ok []
  | r :: rs =>
    match parseRow maxVal r with
    | .error e => .error e
    | .ok pr =>
      match parseRowsAux maxVal rs with
      | .error e => .error e
      | .ok prs => .ok (pr :: prs)

/-- The pixel-population region of `initImageMap` (part_000 revision):
builds the image map from the parsed stream, or fails fatally reporting
`maxVal` when some pixel is out of range. -/
def initImageMapPixels (maxVal : Int) (rows cols : Nat) (stream : List Int) :
    Except Int (List (List Int)) :=
  parseRowsAux maxVal (chunkRows stream rows cols)

/-! ## Control flow of `main` -/

/-- The observable top-level steps of `main`, in program order. -/
inductive MainStep where
  | printBanner
  | reportUsage
  | loadImage
  | computeEnergy
  | computeCumulative
  | carveSeam
  | returnZero
deriving DecidableEq

/-- The sequence of steps `main` performs for a given `argc`: the
wrong-argument-count branch only prints the usage message (no `exit`), and
execution falls through to the pipeline unconditionally. -/
def mainTrace (argc : Nat) : List MainStep :=
  [MainStep.printBanner]
    ++ (if argc = 4 then [] else [MainStep.reportUsage])
    ++ [MainStep.loadImage, MainStep.computeEnergy, MainStep.computeCumulative,
        MainStep.carveSeam, MainStep.returnZero]

end SeamCarving

namespace SeamCarving

/-! ## Helper lemmas -/

lemma iabs_nonneg (a : Int) : 0 ≤ iabs a := by
  unfold iabs; split <;> omega

lemma getD_mem {α : Type} (l : List α) (n : Nat) (d : α) (h : n < l.length) :
    l.getD n d ∈ l := by
  rw [List.getD_eq_getElem l d h]; exact List.getElem_mem h

lemma getD_map_range {α : Type} (f : Nat → α) (n i : Nat) (d : α) :
    ((List.range n).map f).getD i d = if i < n then f i else d := by
  by_cases h : i < n
  · rw [List.getD_eq_getElem _ _ (by simpa using h), if_pos h]
    simp [List.getElem_map, List.getElem_range]
  · rw [List.getD_eq_default _ _ (by simpa using Nat.le_of_not_lt h), if_neg h]

lemma minList_mem : ∀ l : List Int, l ≠ [] → minList l ∈ l := by
  intro l
  induction l with
  | nil => intro h; exact absurd rfl h
  | cons a t ih =>
    intro _
    cases t with
    | nil => simp [minList]
    | cons b t' =>
      show minList (a :: b :: t') ∈ a :: b :: t'
      simp only [minList, imin]
      split
      · exact List.mem_cons_self _ _
      · exact List.mem_cons_of_mem _ (ih (by simp))

lemma seamOriginList_ne_nil (prev : List Int) (curLen j : Nat) :
    seamOriginList prev curLen j ≠ [] := by
  unfold seamOriginList
  intro h
  have := congrArg List.length h
  simp at this

lemma seamOriginList_subset (prev : List Int) (curLen j : Nat)
    (hj : j < prev.length) (hcur : curLen ≤ prev.length) :
    ∀ x ∈ seamOriginList prev curLen j, x ∈ prev := by
  intro x hx
  unfold seamOriginList at hx
  by_cases hL : 1 ≤ j
  · by_cases hR : j + 1 < curLen
    · rw [if_pos hL, if_pos hR] at hx
      rcases List.mem_append.1 hx with h1 | h2
      · rcases List.mem_append.1 h1 with ha | hb
        · rw [List.mem_singleton.1 ha]; exact getD_mem _ _ _ (by omega)
        · rw [List.mem_singleton.1 hb]; exact getD_mem _ _ _ hj
      · rw [List.mem_singleton.1 h2]; exact getD_mem _ _ _ (by omega)
    · rw [if_pos hL, if_neg hR] at hx
      rcases List.mem_append.1 hx with h1 | h2
      · rcases List.mem_append.1 h1 with ha | hb
        · rw [List.mem_singleton.1 ha]; exact getD_mem _ _ _ (by omega)
        · rw [List.mem_singleton.1 hb]; exact getD_mem _ _ _ hj
      · exact absurd h2 (List.not_mem_nil x)
  · by_cases hR : j + 1 < curLen
    · rw [if_neg hL, if_pos hR] at hx
      rcases List.mem_append.1 hx with h1 | h2
      · rcases List.mem_append.1 h1 with ha | hb
        · exact absurd ha (List.not_mem_nil x)
        · rw [List.mem_singleton.1 hb]; exact getD_mem _ _ _ hj
      · rw [List.mem_singleton.1 h2]; exact getD_mem _ _ _ (by omega)
    · rw [if_neg hL, if_neg hR] at hx
      rcases List.mem_append.1 hx with h1 | h2
      · rcases List.mem_append.1 h1 with ha | hb
        · exact absurd ha (List.not_mem_nil x)
        · rw [List.mem_singleton.1 hb]; exact getD_mem _ _ _ hj
      · exact absurd h2 (List.not_mem_nil x)

lemma nextSeamIdx_lt (prev : List Int) (curLen j : Nat)
    (hj : j < prev.length) (hcur : curLen ≤ prev.length) :
    nextSeamIdx prev curLen j < prev.length := by
  unfold nextSeamIdx findIdxOf
  exact List.indexOf_lt_length.2
    (seamOriginList_subset prev curLen j hj hcur _
      (minList_mem _ (seamOriginList_ne_nil prev curLen j)))

lemma minIdx_lt (l : List Int) (hl : l ≠ []) : minIdx l < l.length :=
  List.indexOf_lt_length.2 (minList_mem l hl)

lemma seamRevAux_length :
    ∀ (above : List (List Int)) (cur : List Int) (j : Nat),
      (seamRevAux cur j above).length = above.length + 1 := by
  intro above
  induction above with
  | nil => intro cur j; rfl
  | cons prev rest ih => intro cur j; simp [seamRevAux, ih]

lemma seamRevAux_bounds (C : Nat) :
    ∀ (above : List (List Int)) (cur : List Int) (j : Nat),
      (∀ r ∈ above, r.length = C) → cur.length = C → j < C →
      ∀ x ∈ seamRevAux cur j above, x < C := by
  intro above
  induction above with
  | nil =>
    intro cur j _ _ hj x hx
    simp [seamRevAux] at hx
    omega
  | cons prev rest ih =>
    intro cur j hall hcur hj x hx
    simp only [seamRevAux, List.mem_cons] at hx
    rcases hx with rfl | hx
    · exact hj
    · have hprev : prev.length = C := hall prev (List.mem_cons_self _ _)
      have hnext : nextSeamIdx prev cur.length j < prev.length :=
        nextSeamIdx_lt prev cur.length j (by omega) (by omega)
      exact ih prev (nextSeamIdx prev cur.length j)
        (fun r hr => hall r (List.mem_cons_of_mem _ hr)) hprev (by omega) x hx

lemma seamCarverSeam_length (CE : List (List Int)) :
    (seamCarverSeam CE).length = CE.length := by
  rcases hrev : CE.reverse with _ | ⟨last, above⟩
  · unfold seamCarverSeam
    rw [hrev, List.reverse_eq_nil_iff.1 hrev]
    rfl
  · unfold seamCarverSeam
    rw [hrev]
    have hlen : CE.length = above.length + 1 := by
      have := congrArg List.length hrev
      simpa using this
    simp [seamRevAux_length, hlen]

lemma seamCarverSeam_bounds (CE : List (List Int)) (C : Nat)
    (hrect : IsRect CE C) (hC : 1 ≤ C) :
    ∀ x ∈ seamCarverSeam CE, x < C := by
  rcases hrev : CE.reverse with _ | ⟨last, above⟩
  · unfold seamCarverSeam
    rw [hrev]
    intro x hx
    exact absurd hx (List.not_mem_nil x)
  · unfold seamCarverSeam
    rw [hrev]
    intro x hx
    rw [List.mem_reverse] at hx
    have hmemCE : ∀ r ∈ last :: above, r ∈ CE := by
      intro r hr
      rw [← List.mem_reverse, hrev]
      exact hr
    have hlast : last.length = C := hrect last (hmemCE last (List.mem_cons_self _ _))
    have hlastne : last ≠ [] := by
      intro h
      rw [h] at hlast
      simp at hlast
      omega
    exact seamRevAux_bounds C above last (minIdx last)
      (fun r hr => hrect r (hmemCE r (List.mem_cons_of_mem _ hr)))
      hlast (hlast ▸ minIdx_lt last hlastne) x hx

lemma listSwap_append (pre : List Int) (a b : Int) (suf : List Int) :
    listSwap (pre ++ a :: b :: suf) pre.length (pre.length + 1) = pre ++ b :: a :: suf := by
  induction pre with
  | nil => rfl
  | cons x xs ih =>
    show listSwap (x :: (xs ++ a :: b :: suf)) (xs.length + 1) (xs.length + 1 + 1)
        = x :: (xs ++ b :: a :: suf)
    unfold listSwap at ih ⊢
    rw [List.getD_cons_succ, List.getD_cons_succ, List.set_cons_succ, List.set_cons_succ, ih]

lemma bubbleAux_spec :
    ∀ (suf pre : List Int) (a : Int),
      bubbleAux suf.length (pre ++ a :: suf) pre.length = pre ++ suf ++ [a] := by
  intro suf
  induction suf with
  | nil => intro pre a; simp [bubbleAux]
  | cons b suf' ih =>
    intro pre a
    show bubbleAux (suf'.length + 1) (pre ++ a :: b :: suf') pre.length
        = pre ++ b :: suf' ++ [a]
    rw [bubbleAux, listSwap_append]
    have h1 : pre ++ b :: a :: suf' = (pre ++ [b]) ++ a :: suf' := by simp
    have h2 : pre.length + 1 = (pre ++ [b]).length := by simp
    rw [h1, h2, ih (pre ++ [b]) a]
    simp

lemma removeRow_eq_eraseIdx (row : List Int) (k : Nat) (hk : k < row.length) :
    removeRow row k row.length = row.eraseIdx k := by
  obtain ⟨pre, a, suf, hrow, hpre⟩ :
      ∃ pre a suf, row = pre ++ a :: suf ∧ pre.length = k :=
    ⟨row.take k, row[k], row.drop (k + 1), by
      rw [← List.drop_eq_getElem_cons hk, List.take_append_drop], by
      simp [List.length_take]; omega⟩
  subst hrow
  have hsuf : (pre ++ a :: suf).length - (k + 1) = suf.length := by
    simp; omega
  unfold removeRow
  rw [hsuf, ← hpre, bubbleAux_spec]
  rw [show pre ++ suf ++ [a] = (pre ++ suf) ++ [a] by rw [List.append_assoc]]
  rw [List.dropLast_concat,
    List.eraseIdx_append_of_length_le (Nat.le_refl pre.length), Nat.sub_self,
    List.eraseIdx_cons_zero]

lemma shape_length_eq {I CE : List (List Int)} (hsh : shape I = shape CE) :
    I.length = CE.length := by
  have := congrArg List.length hsh
  simpa [shape] using this

lemma isRect_of_shape_eq {I CE : List (List Int)} {C : Nat}
    (hsh : shape I = shape CE) (hrect : IsRect I C) : IsRect CE C := by
  intro r hr
  obtain ⟨i, hi, rfl⟩ := List.mem_iff_getElem.1 hr
  have hlen : I.length = CE.length := shape_length_eq hsh
  have hIi : i < I.length := by omega
  have h1 : (shape I)[i]? = (shape CE)[i]? := by rw [hsh]
  have h2 : I[i].length = CE[i].length := by
    rw [shape, shape, List.getElem?_map, List.getElem?_map,
      List.getElem?_eq_getElem hIi, List.getElem?_eq_getElem hi] at h1
    simpa using h1
  rw [← h2]
  exact hrect I[i] (List.getElem_mem hIi)

lemma seamCarver_getD (I CE : List (List Int)) (i : Nat)
    (hi : i < I.length) (hlen : I.length = CE.length) :
    (seamCarver I CE).getD i []
      = removeRow (I.getD i []) ((seamCarverSeam CE).getD i 0) (CE.getD i []).length := by
  have hseam : (seamCarverSeam CE).length = CE.length := seamCarverSeam_length CE
  have hzip : ((seamCarverSeam CE).zip (CE.map List.length)).length = CE.length := by
    simp [List.length_zip, hseam]
  have hres : i < (seamCarver I CE).length := by
    simp only [seamCarver, List.length_zipWith, hzip]
    omega
  rw [List.getD_eq_getElem _ _ hres]
  unfold seamCarver
  rw [List.getElem_zipWith, List.getElem_zip]
  have hiCE : i < CE.length := by omega
  rw [List.getD_eq_getElem _ _ hi,
    List.getD_eq_getElem _ _ (show i < (seamCarverSeam CE).length by omega),
    List.getD_eq_getElem _ _ hiCE]
  simp [List.getElem_map]

/-! ## Theorems -/

/-- C5: the removal phase on same-shaped grids with C ≥ 2 columns erases
exactly the seam pixel of each row: every row of the result is the original
row with the element at that row's seam column deleted (order of the rest
preserved), row count is unchanged and every row length drops to C-1. -/
theorem seamCarver_removal (I CE : List (List Int)) (C : Nat)
    (hsh : shape I = shape CE) (hrect : IsRect I C) (hC : 2 ≤ C) :
    (seamCarver I CE).length = I.length
    ∧ ∀ i, i < I.length →
        (seamCarver I CE).getD i []
            = (I.getD i []).eraseIdx ((seamCarverSeam CE).getD i 0)
        ∧ ((seamCarver I CE).getD i []).length = C - 1 := by
  have hlen : I.length = CE.length := shape_length_eq hsh
  have hrectCE : IsRect CE C := isRect_of_shape_eq hsh hrect
  have hseamlen : (seamCarverSeam CE).length = CE.length := seamCarverSeam_length CE
  have hbounds := seamCarverSeam_bounds CE C hrectCE (by omega)
  constructor
  · simp [seamCarver, List.length_zipWith, List.length_zip, hseamlen, hlen]
  · intro i hi
    have hrowlen : (I.getD i []).length = C := hrect _ (getD_mem _ _ _ hi)
    have hCElen : (CE.getD i []).length = C := hrectCE _ (getD_mem _ _ _ (by omega))
    have hk : (seamCarverSeam CE).getD i 0 < C :=
      hbounds _ (getD_mem _ _ _ (by omega))
    have h1 : (seamCarver I CE).getD i []
        = (I.getD i []).eraseIdx ((seamCarverSeam CE).getD i 0) := by
      rw [seamCarver_getD I CE i hi hlen, hCElen, ← hrowlen]
      exact removeRow_eq_eraseIdx _ _ (by omega)
    refine ⟨h1, ?_⟩
    rw [h1, List.length_eraseIdx, hrowlen, if_pos hk]

/-- Witness for C5 at `I = [[1,2],[3,4]]`, `CE = [[5,6],[7,8]]`. -/
theorem seamCarver_removal_witness :
    (seamCarver [[1,2],[3,4]] [[5,6],[7,8]]).length = 2 :=
  (seamCarver_removal [[1,2],[3,4]] [[5,6],[7,8]] 2 rfl (by decide) (by decide)).1

lemma initEnergyMap_shape (I : List (List Int)) : shape (initEnergyMap I) = shape I := by
  apply List.ext_getElem
  · simp [initEnergyMap, shape]
  · intro i h1 h2
    simp only [shape, List.length_map, List.length_range, initEnergyMap,
      List.getElem_map, List.getElem_range]
    have h2' : i < I.length := by simpa [shape] using h2
    simp [rowLen, List.getD_eq_getElem?_getD, List.getElem?_eq_getElem h2']

lemma mat_initEnergyMap (I : List (List Int)) (i j : Nat)
    (hi : i < I.length) (hj : j < rowLen I i) :
    mat (initEnergyMap I) i j = energyAt I i j := by
  unfold mat initEnergyMap
  rw [getD_map_range, if_pos hi, getD_map_range, if_pos hj]

lemma mat_initEnergyMap_nonneg (I : List (List Int)) (i j : Nat) :
    0 ≤ mat (initEnergyMap I) i j := by
  by_cases hi : i < I.length
  · by_cases hj : j < rowLen I i
    · rw [mat_initEnergyMap I i j hi hj]
      unfold energyAt
      dsimp only
      exact add_nonneg (add_nonneg (iabs_nonneg _) (iabs_nonneg _))
        (add_nonneg (iabs_nonneg _) (iabs_nonneg _))
    · unfold mat initEnergyMap
      rw [getD_map_range, if_pos hi, getD_map_range, if_neg hj]
  · unfold mat initEnergyMap
    rw [getD_map_range, if_neg hi]
    simp

lemma initEnergyMap_singleton (a : Int) : initEnergyMap [[a]] = [[0]] := by
  simp [initEnergyMap, rowLen, energyAt, mat, iabs, List.range_succ]

/-- C3: for every rectangular intensity grid, `initEnergyMap` returns a
same-shaped grid whose cell (i,j) is the sum of the four absolute
differences against left/right/up/down neighbors, each out-of-range
neighbor replaced by the pixel's own value (duplicate-border policy); every
entry is non-negative and a 1×1 grid yields energy 0. -/
theorem initEnergyMap_spec (I : List (List Int)) (C : Nat) (hrect : IsRect I C) :
    shape (initEnergyMap I) = shape I
    ∧ (∀ i j, i < I.length → j < C →
        mat (initEnergyMap I) i j =
          iabs (mat I i j - (if 1 ≤ j then mat I i (j - 1) else mat I i j))
            + iabs (mat I i j - (if j + 1 < C then mat I i (j + 1) else mat I i j))
            + (iabs (mat I i j - (if 1 ≤ i then mat I (i - 1) j else mat I i j))
            + iabs (mat I i j - (if i + 1 < I.length then mat I (i + 1) j else mat I i j))))
    ∧ (∀ i j, 0 ≤ mat (initEnergyMap I) i j)
    ∧ ∀ a : Int, initEnergyMap [[a]] = [[0]] := by
  refine ⟨initEnergyMap_shape I, ?_, mat_initEnergyMap_nonneg I, initEnergyMap_singleton⟩
  intro i j hi hj
  have hrowlen : rowLen I i = C := hrect _ (getD_mem _ _ _ hi)
  rw [mat_initEnergyMap I i j hi (by omega)]
  unfold energyAt
  dsimp only
  rw [hrowlen]

lemma ceRow_length (prev erow : List Int) : (ceRow prev erow).length = erow.length := by
  simp [ceRow]

lemma ceRows_shape :
    ∀ (rs : List (List Int)) (prev : List Int), shape (ceRows prev rs) = shape rs := by
  intro rs
  induction rs with
  | nil => intro prev; rfl
  | cons r rs' ih =>
    intro prev
    show shape (ceRow prev r :: ceRows (ceRow prev r) rs') = shape (r :: rs')
    simp only [shape, List.map_cons, ceRow_length]
    have := ih (ceRow prev r)
    simp only [shape] at this
    rw [this]

lemma initCumulativeEnergyMap_shape (E : List (List Int)) :
    shape (initCumulativeEnergyMap E) = shape E := by
  cases E with
  | nil => rfl
  | cons r0 rest =>
    show shape (r0 :: ceRows r0 rest) = shape (r0 :: rest)
    have := ceRows_shape rest r0
    simp only [shape, List.map_cons] at this ⊢
    rw [this]

lemma ceRows_getD :
    ∀ (rs : List (List Int)) (prev : List Int) (k : Nat), k < rs.length →
      (ceRows prev rs).getD k []
        = ceRow ((prev :: ceRows prev rs).getD k []) (rs.getD k []) := by
  intro rs
  induction rs with
  | nil => intro prev k hk; simp at hk
  | cons r rs' ih =>
    intro prev k hk
    cases k with
    | zero => rfl
    | succ k' =>
      have hk' : k' < rs'.length := by simpa using hk
      show (ceRows prev (r :: rs')).getD (k' + 1) [] = _
      simp only [ceRows, List.getD_cons_succ]
      rw [ih (ceRow prev r) k' hk']

lemma ce_rec (E : List (List Int)) (i : Nat) (h1 : 1 ≤ i) (h2 : i < E.length) :
    (initCumulativeEnergyMap E).getD i []
      = ceRow ((initCumulativeEnergyMap E).getD (i - 1) []) (E.getD i []) := by
  cases E with
  | nil => simp at h2
  | cons r0 rest =>
    cases i with
    | zero => omega
    | succ k =>
      have hk : k < rest.length := by simpa using h2
      show (r0 :: ceRows r0 rest).getD (k + 1) []
          = ceRow ((r0 :: ceRows r0 rest).getD (k + 1 - 1) []) ((r0 :: rest).getD (k + 1) [])
      simp only [Nat.add_sub_cancel, List.getD_cons_succ]
      exact ceRows_getD rest r0 k hk

lemma ceRow_getD (prev erow : List Int) (j : Nat) (hj : j < erow.length) :
    (ceRow prev erow).getD j 0
      = erow.getD j 0 + minList (seamOriginList prev erow.length j) := by
  unfold ceRow
  rw [getD_map_range, if_pos hj]

/-- C4: for every rectangular energy grid, `initCumulativeEnergyMap`
returns a same-shaped grid whose row 0 equals the energy grid's row 0, and
whose every cell (i,j) with i ≥ 1 is energy(i,j) plus the minimum of the
cumulative values of row i-1 at the in-range columns among
{j-1, j, j+1}. -/
theorem initCumulativeEnergyMap_spec (E : List (List Int)) (C : Nat) (hrect : IsRect E C) :
    shape (initCumulativeEnergyMap E) = shape E
    ∧ (initCumulativeEnergyMap E).getD 0 [] = E.getD 0 []
    ∧ ∀ i j, 1 ≤ i → i < E.length → j < C →
        mat (initCumulativeEnergyMap E) i j
          = mat E i j
            + minList
                ((if 1 ≤ j then [mat (initCumulativeEnergyMap E) (i - 1) (j - 1)] else [])
                  ++ [mat (initCumulativeEnergyMap E) (i - 1) j]
                  ++ (if j + 1 < C then [mat (initCumulativeEnergyMap E) (i - 1) (j + 1)] else [])) := by
  refine ⟨initCumulativeEnergyMap_shape E, ?_, ?_⟩
  · cases E with
    | nil => rfl
    | cons r0 rest => rfl
  · intro i j h1 h2 h3
    have herow : (E.getD i []).length = C := hrect _ (getD_mem _ _ _ h2)
    unfold mat
    rw [ce_rec E i h1 h2, ceRow_getD _ _ _ (by omega), herow]
    rfl

/-- Witness for C3 at `[[1,2],[3,4]]`. -/
theorem initEnergyMap_spec_witness :
    shape (initEnergyMap [[1,2],[3,4]]) = shape [[1,2],[3,4]] :=
  (initEnergyMap_spec [[1,2],[3,4]] 2 (by decide)).1

/-- Witness for C4 at `[[1,2],[3,4]]`. -/
theorem initCumulativeEnergyMap_spec_witness :
    shape (initCumulativeEnergyMap [[1,2],[3,4]]) = shape [[1,2],[3,4]] :=
  (initCumulativeEnergyMap_spec [[1,2],[3,4]] 2 (by decide)).1

/-- C10: for every rectangular cumulative grid with C ≥ 1 columns, Phase 1
of `seamCarver` stays in bounds: the seam has one column index per row and
every stored index — the seed from the last-row minimum as well as every
index produced by the row-wide value search (which always succeeds because
the searched value is the minimum of elements drawn from that very row) —
lies in `[0, C-1]`. -/
theorem seam_indices_in_bounds (CE : List (List Int)) (C : Nat)
    (hrect : IsRect CE C) (hC : 1 ≤ C) :
    (seamCarverSeam CE).length = CE.length ∧ ∀ x ∈ seamCarverSeam CE, x < C :=
  ⟨seamCarverSeam_length CE, seamCarverSeam_bounds CE C hrect hC⟩

lemma parseRow_eq_ok (maxVal : Int) :
    ∀ r : List Int, (∀ p ∈ r, 0 ≤ p ∧ p ≤ maxVal) → parseRow maxVal r = .ok r := by
  intro r
  induction r with
  | nil => intro _; rfl
  | cons p rest ih =>
    intro h
    have hp := h p (List.mem_cons_self _ _)
    unfold parseRow
    rw [if_neg (by simp only [Bool.or_eq_true, decide_eq_true_eq]; omega)]
    rw [ih fun q hq => h q (List.mem_cons_of_mem _ hq)]

lemma parseRow_eq_error (maxVal : Int) :
    ∀ r : List Int, (∃ p ∈ r, maxVal < p ∨ p < 0) → parseRow maxVal r = .error maxVal := by
  intro r
  induction r with
  | nil => intro h; simp at h
  | cons p rest ih =>
    intro h
    unfold parseRow
    by_cases hp : maxVal < p ∨ p < 0
    · rw [if_pos (by simp only [Bool.or_eq_true, decide_eq_true_eq]; exact hp)]
    · rw [if_neg (by simp only [Bool.or_eq_true, decide_eq_true_eq]; exact hp)]
      have hrest : ∃ q ∈ rest, maxVal < q ∨ q < 0 := by
        rcases h with ⟨q, hq, hbad⟩
        rcases List.mem_cons.1 hq with rfl | hq'
        · exact absurd hbad hp
        · exact ⟨q, hq', hbad⟩
      rw [ih hrest]

lemma parseRowsAux_eq_ok (maxVal : Int) :
    ∀ rs : List (List Int), (∀ r ∈ rs, ∀ p ∈ r, 0 ≤ p ∧ p ≤ maxVal) →
      parseRowsAux maxVal rs = .ok rs := by
  intro rs
  induction rs with
  | nil => intro _; rfl
  | cons r rs' ih =>
    intro h
    unfold parseRowsAux
    rw [parseRow_eq_ok maxVal r (h r (List.mem_cons_self _ _)),
      ih fun q hq => h q (List.mem_cons_of_mem _ hq)]

lemma parseRowsAux_eq_error (maxVal : Int) :
    ∀ rs : List (List Int), (∃ r ∈ rs, ∃ p ∈ r, maxVal < p ∨ p < 0) →
      parseRowsAux maxVal rs = .error maxVal := by
  intro rs
  induction rs with
  | nil => intro h; simp at h
  | cons r rs' ih =>
    intro h
    unfold parseRowsAux
    by_cases hr : ∃ p ∈ r, maxVal < p ∨ p < 0
    · rw [parseRow_eq_error maxVal r hr]
    · have hgood : ∀ p ∈ r, 0 ≤ p ∧ p ≤ maxVal := by
        intro p hp
        by_contra hc
        exact hr ⟨p, hp, by omega⟩
      rw [parseRow_eq_ok maxVal r hgood]
      have hrest : ∃ r' ∈ rs', ∃ p ∈ r', maxVal < p ∨ p < 0 := by
        rcases h with ⟨r', hr', p, hp, hbad⟩
        rcases List.mem_cons.1 hr' with rfl | hmem
        · exact absurd ⟨p, hp, hbad⟩ hr
        · exact ⟨r', hmem, p, hp, hbad⟩
      rw [ih hrest]

/-- C8: the pixel-population loop of `initImageMap` fails fatally with the
declared bound exactly when some parsed pixel lies outside
`[0, maxPixelValue]`, and accepts the grid unchanged exactly when every
parsed pixel is in range. -/
theorem pixel_range_check (maxVal : Int) (rows cols : Nat) (stream : List Int) :
    (initImageMapPixels maxVal rows cols stream = Except.error maxVal
      ↔ ∃ r ∈ chunkRows stream rows cols, ∃ p ∈ r, maxVal < p ∨ p < 0)
    ∧ (initImageMapPixels maxVal rows cols stream
          = Except.ok (chunkRows stream rows cols)
      ↔ ∀ r ∈ chunkRows stream rows cols, ∀ p ∈ r, 0 ≤ p ∧ p ≤ maxVal) := by
  constructor
  · constructor
    · intro he
      by_cases h : ∃ r ∈ chunkRows stream rows cols, ∃ p ∈ r, maxVal < p ∨ p < 0
      · exact h
      · exfalso
        have hgood : ∀ r ∈ chunkRows stream rows cols, ∀ p ∈ r, 0 ≤ p ∧ p ≤ maxVal := by
          intro r hr p hp
          by_contra hc
          exact h ⟨r, hr, p, hp, by omega⟩
        rw [initImageMapPixels, parseRowsAux_eq_ok maxVal _ hgood] at he
        exact Except.noConfusion he
    · intro h
      exact parseRowsAux_eq_error maxVal _ h
  · constructor
    · intro he
      intro r hr p hp
      by_contra hc
      have hbad : initImageMapPixels maxVal rows cols stream = Except.error maxVal :=
        parseRowsAux_eq_error maxVal _ ⟨r, hr, p, hp, by omega⟩
      rw [hbad] at he
      exact Except.noConfusion he
    · intro h
      exact parseRowsAux_eq_ok maxVal _ h

/-- Witness for C8: with `maxValue = 255`, a stream `[7, 300]` read as one
1×2 row is rejected with the reported bound 255, while `[7, 12]` is
accepted verbatim. -/
theorem pixel_range_check_witness :
    initImageMapPixels 255 1 2 [7, 300] = Except.error 255
    ∧ initImageMapPixels 255 1 2 [7, 12] = Except.ok [[7, 12]] :=
  ⟨(pixel_range_check 255 1 2 [7, 300]).1.2 (by decide),
    (pixel_range_check 255 1 2 [7, 12]).2.2 (by decide)⟩

/-- C9: with a wrong argument count, `main` reports the usage error but is
non-fatal: the trace still loads the raster, runs the full pipeline and
ends by returning 0. -/
theorem wrong_argc_nonfatal (argc : Nat) (h : argc ≠ 4) :
    MainStep.reportUsage ∈ mainTrace argc
    ∧ MainStep.loadImage ∈ mainTrace argc
    ∧ MainStep.carveSeam ∈ mainTrace argc
    ∧ (mainTrace argc).getLast? = some MainStep.returnZero := by
  unfold mainTrace
  rw [if_neg h]
  decide

/-- Witness for C9 at `argc = 2`. -/
theorem wrong_argc_nonfatal_witness :
    MainStep.reportUsage ∈ mainTrace 2
    ∧ MainStep.loadImage ∈ mainTrace 2
    ∧ MainStep.carveSeam ∈ mainTrace 2
    ∧ (mainTrace 2).getLast? = some MainStep.returnZero :=
  wrong_argc_nonfatal 2 (by decide)

/-- Witness for C10 at the concrete grid `[[1,2],[3,4]]`. -/
theorem seam_indices_in_bounds_witness :
    (seamCarverSeam [[1,2],[3,4]]).length = 2
    ∧ ∀ x ∈ seamCarverSeam [[1,2],[3,4]], x < 2 :=
  seam_indices_in_bounds [[1,2],[3,4]] 2 (by decide) (by decide)

/-- C6: on the input grid `[[1,2,3],[4,5,6],[7,8,9]]` the pipeline produces
energy grid `[[4,5,4],[7,8,7],[4,5,4]]`, cumulative grid
`[[4,5,4],[11,12,11],[15,16,15]]`, the seam column 0 in every row, and the
post-removal grid `[[2,3],[5,6],[8,9]]`. -/
theorem endToEnd_example :
    initEnergyMap [[1,2,3],[4,5,6],[7,8,9]] = [[4,5,4],[7,8,7],[4,5,4]]
    ∧ initCumulativeEnergyMap [[4,5,4],[7,8,7],[4,5,4]]
        = [[4,5,4],[11,12,11],[15,16,15]]
    ∧ seamCarverSeam [[4,5,4],[11,12,11],[15,16,15]] = [0, 0, 0]
    ∧ seamCarver [[1,2,3],[4,5,6],[7,8,9]] [[4,5,4],[11,12,11],[15,16,15]]
        = [[2,3],[5,6],[8,9]] := by
  decide

/-- C1: the adjacency invariant FAILS on the code.  For the intensity grid
`[[0,0,0,0],[0,3,0,0]]` the pipeline's own cumulative grid is
`[[0,3,0,0],[3,9,3,0]]`, and the seam identified by `seamCarver`'s
backtrace is `[0, 3]`: row 0 selects column 0 while row 1 selects column 3,
a jump of 3 columns (the row-wide `std::find` matches the duplicate value 0
at column 0 instead of a connected candidate). -/
theorem seam_adjacency_violated :
    initCumulativeEnergyMap (initEnergyMap [[0,0,0,0],[0,3,0,0]])
      = [[0,3,0,0],[3,9,3,0]]
    ∧ seamCarverSeam (initCumulativeEnergyMap (initEnergyMap [[0,0,0,0],[0,3,0,0]]))
      = [0, 3]
    ∧ ¬ SeamAdjacent
        (seamCarverSeam (initCumulativeEnergyMap (initEnergyMap [[0,0,0,0],[0,3,0,0]]))) := by
  decide

/-- C2: Phase 1 does NOT compute the reference backtrace.  For the
intensity grid `[[0,0,0,0],[0,6,0,0]]` the cumulative grid is
`[[0,6,0,0],[6,18,6,0]]`; the seed is column 3, the candidate columns for
row 0 are `{2, 3}`, and the reference backtrace yields seam `[2, 3]`, but
the code's row-wide value search returns seam `[0, 3]` — column 0 is not
among the candidates. -/
theorem backtrace_diverges_from_reference :
    initCumulativeEnergyMap (initEnergyMap [[0,0,0,0],[0,6,0,0]])
      = [[0,6,0,0],[6,18,6,0]]
    ∧ seamCarverSeam [[0,6,0,0],[6,18,6,0]] = [0, 3]
    ∧ refSeam [[0,6,0,0],[6,18,6,0]] = [2, 3]
    ∧ seamCarverSeam [[0,6,0,0],[6,18,6,0]] ≠ refSeam [[0,6,0,0],[6,18,6,0]]
    ∧ refCandPos 4 3 = [2, 3]
    ∧ (seamCarverSeam [[0,6,0,0],[6,18,6,0]]).getD 0 0 ∉ refCandPos 4 3 := by
  decide

/-- C7: `seamCarver` performs NO precondition check for column count ≤ 1.
On the 1-column image `[[1],[2]]` (with its 1-column cumulative grid) it
silently proceeds: the seam is `[0, 0]` and every row's only pixel is
popped, leaving the corrupted 2×0 grid `[[], []]` — no error is reported. -/
theorem seamCarver_single_column_proceeds :
    seamCarverSeam [[1],[2]] = [0, 0]
    ∧ seamCarver [[1],[2]] [[1],[2]] = [[], []] := by
  decide

end SeamCarving
